import Mathlib

/-!
Verification of the URL-shortener core (service layer, memory storage backend,
short-id generator, storage selector) against its natural-language specification.

The Go source is shallowly embedded:
* Go maps (`map[string]V`) become association lists `List (String × V)`;
  map assignment removes every binding of the key and appends the new one,
  lookup returns the first binding.  Go's unspecified map iteration order is
  determinized to list order.
* Errors (`error` return values) become `Option String` (`none` = `nil`).
* The stateful random generator becomes an index into an arbitrary stream.
* Concurrency (mutexes, the bounded fan-out delete pipeline) is flattened to
  deterministic sequential execution; the claims settled here are about
  values returned and state reached, not about scheduling.
-/

set_option autoImplicit false

/-- Embeds `models.UserURL` (part_039): one stored record of the memory backend. -/
structure UserURL where
  shortURL : String
  originalURL : String
  userID : String
  isDeleted : Bool
  deriving Repr, DecidableEq

/-- Embeds `models.ShortenResult` / `service.ShortenResult`. -/
structure ShortenResult where
  shortURL : String
  isNew : Bool
  deriving Repr, DecidableEq

/-- Embeds `models.BatchShortenRequest`. -/
structure BatchShortenRequest where
  correlationID : String
  originalURL : String
  deriving Repr, DecidableEq

/-- Embeds `models.BatchShortenResponse`. -/
structure BatchShortenResponse where
  correlationID : String
  shortURL : String
  deriving Repr, DecidableEq

/-- Go map read `m[k]` (comma-ok form): first binding of `k`, if any. -/
def mapFind {α : Type} (k : String) : List (String × α) → Option α
  | [] => none
  | p :: rest => if p.1 = k then some p.2 else mapFind k rest

/-- Remove every binding of key `k` (helper for Go map assignment). -/
def mapErase {α : Type} (k : String) : List (String × α) → List (String × α)
  | [] => []
  | p :: rest => if p.1 = k then mapErase k rest else p :: mapErase k rest

/-- Go map assignment `m[k] = v`: drop old bindings of `k`, append the new one. -/
def mapSet {α : Type} (m : List (String × α)) (k : String) (v : α) : List (String × α) :=
  mapErase k m ++ [(k, v)]

/-- Go map read `m[k]` (one-result form) for `map[string]string`: zero value `""` if absent. -/
def mapGetD (k : String) (m : List (String × String)) : String :=
  match mapFind k m with
  | some v => v
  | none => ""

/-- State of `memory.MemoryStorage` (memory.go): the `urls map[string]models.UserURL` field. -/
abbrev MemStorage := List (String × UserURL)

/-- Embeds `MemoryStorage.Save` (memory.go lines 153-164): unconditionally overwrite
the record under `shortID` with a fresh, non-deleted record; always return `nil`. -/
def memSave (m : MemStorage) (shortID originalURL userID : String) : MemStorage × Option String :=
  (mapSet m shortID ⟨shortID, originalURL, userID, false⟩, none)

/-- Loop body of `MemoryStorage.SaveBatch`: store every pair as a fresh record. -/
def memSaveBatchLoop (userID : String) : List (String × String) → MemStorage → MemStorage
  | [], m => m
  | it :: rest, m => memSaveBatchLoop userID rest (mapSet m it.1 ⟨it.1, it.2, userID, false⟩)

/-- Embeds `MemoryStorage.SaveBatch` (memory.go lines 178-191); always returns `nil`. -/
def memSaveBatch (m : MemStorage) (items : List (String × String)) (userID : String) :
    MemStorage × Option String :=
  (memSaveBatchLoop userID items m, none)

/-- Embeds `MemoryStorage.Get` (memory.go lines 193-202): `("", false)` when the key is
absent or the record is marked deleted, else the original URL and `true`. -/
def memGet (m : MemStorage) (shortID : String) : String × Bool :=
  match mapFind shortID m with
  | none => ("", false)
  | some r => if r.isDeleted then ("", false) else (r.originalURL, true)

/-- Scan of `MemoryStorage.FindByOriginalURL` (memory.go lines 166-176):
first live record whose `OriginalURL` matches, returning its key, else `""`. -/
def memFind (originalURL : String) : MemStorage → String
  | [] => ""
  | p :: rest =>
      if p.2.originalURL = originalURL ∧ p.2.isDeleted = false then p.1
      else memFind originalURL rest

/-- Embeds `MemoryStorage.FindByOriginalURL`: never errors, never mutates. -/
def memFindByOriginalURL (m : MemStorage) (originalURL : String) :
    MemStorage × String × Option String :=
  (m, memFind originalURL m, none)

/-- Scan of `MemoryStorage.GetURLsByUserID` (memory.go lines 204-215):
collect the live records owned by `userID`, in storage order. -/
def memListByUser (userID : String) : MemStorage → List UserURL
  | [] => []
  | p :: rest =>
      if p.2.userID = userID ∧ p.2.isDeleted = false
      then p.2 :: memListByUser userID rest
      else memListByUser userID rest

/-- Embeds `MemoryStorage.GetURLsByUserID`: never errors. -/
def memGetURLsByUserID (m : MemStorage) (userID : String) : List UserURL × Option String :=
  (memListByUser userID m, none)

/-- One iteration of `MemoryStorage.DeleteURLs` (memory.go lines 221-226):
mark `shortID` deleted only when the stored record exists and is owned by
`userID`; otherwise leave the map unchanged. -/
def memDeleteStep (userID shortID : String) (m : MemStorage) : MemStorage :=
  match mapFind shortID m with
  | some r => if r.userID = userID then mapSet m shortID { r with isDeleted := true } else m
  | none => m

/-- Loop of `MemoryStorage.DeleteURLs` (memory.go lines 217-228). -/
def memDeleteLoop (userID : String) : List String → MemStorage → MemStorage
  | [], m => m
  | shortID :: rest, m => memDeleteLoop userID rest (memDeleteStep userID shortID m)

/-- Embeds `MemoryStorage.DeleteURLs`: always returns `nil`. -/
def memDeleteURLs (m : MemStorage) (shortIDs : List String) (userID : String) :
    MemStorage × Option String :=
  (memDeleteLoop userID shortIDs m, none)

/-- The storage-backend interface consumed by the service
(`models.URLSaver`, `URLBatchSaver`, `URLGetter`, `URLFetcher`, `URLDeleter`),
over an abstract backend state `σ`.  Each operation returns the new backend
state where the Go method may mutate, plus the Go results. -/
structure Backend (σ : Type) where
  save : σ → String → String → String → σ × Option String
  saveBatch : σ → List (String × String) → String → σ × Option String
  get : σ → String → String × Bool
  findByOriginalURL : σ → String → σ × String × Option String
  getURLsByUserID : σ → String → List UserURL × Option String
  deleteURLs : σ → List String → String → σ × Option String

/-- The memory backend as a `Backend` instance. -/
def memBackend : Backend MemStorage where
  save := memSave
  saveBatch := memSaveBatch
  get := memGet
  findByOriginalURL := memFindByOriginalURL
  getURLsByUserID := memGetURLsByUserID
  deleteURLs := memDeleteURLs

/-- State of `service.Service` (service.go): backend handle state, the per-user
cache `map[string][]models.UserURL`, the generator (an id stream plus the count
of `Generate` calls made so far), and `BaseURL`. -/
structure Service (σ : Type) where
  store : σ
  cache : List (String × List UserURL)
  genStream : Nat → String
  genIdx : Nat
  baseURL : String

/-- Embeds `Service.ShortenURL` (service.go lines 67-96): dedup lookup via
`FindByOriginalURL` (errors wrapped and surfaced), early return on a hit,
id generation with fail-fast on `""`, cache invalidation for `userID`,
then `Save` (errors wrapped). -/
def shortenURL {σ : Type} (B : Backend σ) (s : Service σ) (originalURL userID : String) :
    Service σ × ShortenResult × Option String :=
  let fr := B.findByOriginalURL s.store originalURL
  let s1 : Service σ := { s with store := fr.1 }
  match fr.2.2 with
  | some e => (s1, ⟨"", false⟩, some ("error finding URL: " ++ e))
  | none =>
    if fr.2.1 ≠ "" then
      (s1, ⟨s1.baseURL ++ "/" ++ fr.2.1, false⟩, none)
    else
      let shortID := s1.genStream s1.genIdx
      let s2 : Service σ := { s1 with genIdx := s1.genIdx + 1 }
      if shortID = "" then
        (s2, ⟨"", false⟩, some "failed to generate short ID")
      else
        let s3 : Service σ := { s2 with cache := mapErase userID s2.cache }
        let sv := B.save s3.store shortID originalURL userID
        let s4 : Service σ := { s3 with store := sv.1 }
        match sv.2 with
        | some e => (s4, ⟨"", false⟩, some ("error saving URL: " ++ e))
        | none => (s4, ⟨s1.baseURL ++ "/" ++ shortID, true⟩, none)

/-- Generation loop of `Service.ShortenBatch` (service.go lines 113-117):
one generated id per item, building `batch : shortID → originalURL` and
`correlationMap : correlationID → shortID`.  Returns the final generator
index and the two maps. -/
def batchLoop (g : Nat → String) :
    List BatchShortenRequest → Nat → List (String × String) → List (String × String) →
    Nat × List (String × String) × List (String × String)
  | [], idx, batch, corr => (idx, batch, corr)
  | item :: rest, idx, batch, corr =>
      batchLoop g rest (idx + 1) (mapSet batch (g idx) item.originalURL)
        (mapSet corr item.correlationID (g idx))

/-- Embeds `Service.ShortenBatch` (service.go lines 109-138): generate ids, invalidate
the user's cache entry, persist via `SaveBatch` (errors wrapped, `nil` response),
then answer each input from `correlationMap`. -/
def shortenBatch {σ : Type} (B : Backend σ) (s : Service σ)
    (items : List BatchShortenRequest) (userID : String) :
    Service σ × List BatchShortenResponse × Option String :=
  let r := batchLoop s.genStream items s.genIdx [] []
  let s1 : Service σ := { s with genIdx := r.1, cache := mapErase userID s.cache }
  let sv := B.saveBatch s1.store r.2.1 userID
  let s2 : Service σ := { s1 with store := sv.1 }
  match sv.2 with
  | some e => (s2, [], some ("ошибка сохранения пакета URL: " ++ e))
  | none =>
    (s2, items.map (fun item =>
        ⟨item.correlationID, s.baseURL ++ "/" ++ mapGetD item.correlationID r.2.2⟩), none)

/-- Embeds `Service.Get` (service.go lines 149-151): pure passthrough to the backend. -/
def serviceGet {σ : Type} (B : Backend σ) (s : Service σ) (shortID : String) : String × Bool :=
  B.get s.store shortID

/-- Embeds `Service.GetURLsByUserID` (service.go lines 163-185): return the cached
snapshot if present; otherwise fetch, rewrite each `ShortURL` to a full URL,
cache the snapshot, and return it. -/
def getURLsByUserID {σ : Type} (B : Backend σ) (s : Service σ) (userID : String) :
    Service σ × List UserURL × Option String :=
  match mapFind userID s.cache with
  | some cached => (s, cached, none)
  | none =>
    let fr := B.getURLsByUserID s.store userID
    match fr.2 with
    | some e => (s, [], some ("ошибка получения URL пользователя: " ++ e))
    | none =>
      let urls := fr.1.map (fun u => { u with shortURL := s.baseURL ++ "/" ++ u.shortURL })
      ({ s with cache := mapSet s.cache userID urls }, urls, none)

/-- Embeds `Service.DeleteURLs` (service.go lines 197-203): invalidate the user's
cache entry, then delegate to the backend deleter. -/
def serviceDeleteURLs {σ : Type} (B : Backend σ) (s : Service σ)
    (shortIDs : List String) (userID : String) : Service σ × Option String :=
  let s1 : Service σ := { s with cache := mapErase userID s.cache }
  let d := B.deleteURLs s1.store shortIDs userID
  ({ s1 with store := d.1 }, d.2)

/-- Fan-out loop of `service.DeleteURLs` (part_015 lines 129-145): each id is
deleted by its own backend call; a per-item error is appended to the drained
results log (where the Go code logs it) and never propagated.  The bounded
worker pool is determinized to sequential per-id calls. -/
def fanoutLoop {σ : Type} (B : Backend σ) (userID : String) :
    List String → σ → List String → σ × List String
  | [], st, errLog => (st, errLog)
  | shortID :: rest, st, errLog =>
      let d := B.deleteURLs st [shortID] userID
      fanoutLoop B userID rest d.1
        (errLog ++ (match d.2 with | some e => [e] | none => []))

/-- Embeds `service.DeleteURLs` (part_015 lines 124-153), non-cancelled path: dispatch
every per-id deletion, drain and log the per-item errors, return `nil`. -/
def deleteURLsFanout {σ : Type} (B : Backend σ) (st : σ)
    (shortIDs : List String) (userID : String) : σ × List String × Option String :=
  let r := fanoutLoop B userID shortIDs st []
  (r.1, r.2, none)

/-- The letters field set by `generator.NewGenerator` (part_022):
the 62-character alphanumeric alphabet. -/
def lettersAlphanum : String :=
  "abcdefghijklmnopqrstuvwxyzABCDEFGHIJKLMNOPQRSTUVWXYZ0123456789"

/-- Embeds `generator.SimpleGenerator` (part_022): the character set, the configured
id length, and the `rand.Rand` source modelled as a stream of naturals with a
consumption index (`Intn n` yields `randSrc randIdx % n`). -/
structure SimpleGenerator where
  letters : String
  length : Nat
  randSrc : Nat → Nat
  randIdx : Nat

/-- Embeds `generator.NewGenerator(length)`: fixes the alphanumeric letters and the
length; the seed is abstracted into the supplied random stream. -/
def NewGenerator (length : Nat) (randSrc : Nat → Nat) : SimpleGenerator :=
  ⟨lettersAlphanum, length, randSrc, 0⟩

/-- Embeds `SimpleGenerator.Generate` (part_022 lines 51-59): fill a buffer of
`length` characters, each `letters[Intn(len(letters))]`, and return it as a
string, consuming `length` random draws. -/
def SimpleGenerator.generate (g : SimpleGenerator) : String × SimpleGenerator :=
  (String.mk ((List.range g.length).map
      (fun i => g.letters.data.getD (g.randSrc (g.randIdx + i) % g.letters.data.length) 'a')),
   { g with randIdx := g.randIdx + g.length })

/-- Which backend `storage.NewStorage` selected. -/
inductive StorageImpl where
  | sql
  | file
  | memory
  deriving Repr, DecidableEq

/-- Embeds `storage.NewStorage(databaseDSN, fileStoragePath)` (storage.go lines 30-59).
`sqlOk dsn` models whether `database.NewPostgresStorage(dsn)` succeeds and
`fileOk path` whether `file.NewFileStorage(path)` succeeds; a construction
failure logs and falls through.  The function itself always returns `nil`. -/
def NewStorage (sqlOk fileOk : String → Bool) (databaseDSN fileStoragePath : String) :
    StorageImpl × Option String :=
  let impl1 : Option StorageImpl :=
    if databaseDSN ≠ "" then
      if sqlOk databaseDSN then some StorageImpl.sql else none
    else none
  let impl2 : Option StorageImpl :=
    match impl1 with
    | some x => some x
    | none =>
      if fileStoragePath ≠ "" then
        if fileOk fileStoragePath then some StorageImpl.file else none
      else none
  match impl2 with
  | some x => (x, none)
  | none => (StorageImpl.memory, none)

/-- Concrete witness fixture: a fresh memory-backed service with base URL
`http://x` and a generator that always yields `abc12345`. -/
def svcMem0 : Service MemStorage :=
  { store := [], cache := [], genStream := fun _ => "abc12345", genIdx := 0,
    baseURL := "http://x" }

/-- Concrete witness fixture: a backend over a call-log state whose dedup
lookup always fails (models a storage outage during `FindByOriginalURL`). -/
def failingFindBackend : Backend (List String) where
  save := fun st _ _ _ => (st ++ ["Save"], none)
  saveBatch := fun st _ _ => (st ++ ["SaveBatch"], none)
  get := fun _ _ => ("", false)
  findByOriginalURL := fun st _ => (st ++ ["FindByOriginalURL"], "", some "db down")
  getURLsByUserID := fun _ _ => ([], none)
  deleteURLs := fun st _ _ => (st ++ ["DeleteURLs"], none)

/-- Concrete witness fixture: a service over the call-log backend state. -/
def svcLog0 : Service (List String) :=
  { store := [], cache := [], genStream := fun _ => "abc12345", genIdx := 0,
    baseURL := "http://x" }

/-- Concrete witness fixture: a fresh memory-backed service whose generator
yields a distinct id on every call (`a`, `aa`, `aaa`, ...). -/
def svcMemSeq : Service MemStorage :=
  { store := [], cache := [], genStream := fun i => String.mk (List.replicate (i + 1) 'a'),
    genIdx := 0, baseURL := "http://x" }

/-- Concrete fixture: a backend whose per-id deletion always fails (counts the
attempts in its state), exercising the best-effort delete contract. -/
def alwaysFailDeleter : Backend Nat where
  save := fun st _ _ _ => (st, none)
  saveBatch := fun st _ _ => (st, none)
  get := fun _ _ => ("", false)
  findByOriginalURL := fun st _ => (st, "", none)
  getURLsByUserID := fun _ _ => ([], none)
  deleteURLs := fun st _ _ => (st + 1, some "delete failed")

/-! Section: Association-list map lemmas -/

theorem mapFind_mapErase_self {α : Type} (k : String) (m : List (String × α)) :
    mapFind k (mapErase k m) = none := by
  induction m with
  | nil => rfl
  | cons p rest ih =>
      by_cases h : p.1 = k
      · simp [mapErase, h, ih]
      · simp [mapErase, mapFind, h, ih]

theorem mapFind_mapErase_ne {α : Type} {k k' : String} (h : k ≠ k') (m : List (String × α)) :
    mapFind k' (mapErase k m) = mapFind k' m := by
  induction m with
  | nil => rfl
  | cons p rest ih =>
      by_cases hp : p.1 = k
      · have hpk : p.1 ≠ k' := by rw [hp]; exact h
        simp [mapErase, mapFind, hp, hpk, ih, h]
      · simp [mapErase, mapFind, hp, ih]

theorem mapFind_append {α : Type} (k : String) (l₁ l₂ : List (String × α)) :
    mapFind k (l₁ ++ l₂) =
      (match mapFind k l₁ with | some v => some v | none => mapFind k l₂) := by
  induction l₁ with
  | nil => rfl
  | cons p rest ih =>
      by_cases h : p.1 = k
      · simp [mapFind, h]
      · simp [mapFind, h, ih]

theorem mapFind_mapSet_self {α : Type} (m : List (String × α)) (k : String) (v : α) :
    mapFind k (mapSet m k v) = some v := by
  rw [mapSet, mapFind_append, mapFind_mapErase_self]
  simp [mapFind]

theorem mapFind_mapSet_ne {α : Type} {k k' : String} (h : k ≠ k')
    (m : List (String × α)) (v : α) :
    mapFind k' (mapSet m k v) = mapFind k' m := by
  rw [mapSet, mapFind_append, mapFind_mapErase_ne h]
  cases hf : mapFind k' m with
  | some v' => rfl
  | none => simp [mapFind, h]

theorem mem_of_mem_mapErase {α : Type} {k : String} {p : String × α}
    {m : List (String × α)} (h : p ∈ mapErase k m) : p ∈ m := by
  induction m with
  | nil => simp [mapErase] at h
  | cons q rest ih =>
      by_cases hq : q.1 = k
      · rw [mapErase, if_pos hq] at h
        exact List.mem_cons_of_mem q (ih h)
      · rw [mapErase, if_neg hq] at h
        rcases List.mem_cons.mp h with h1 | h2
        · exact h1 ▸ List.mem_cons_self q rest
        · exact List.mem_cons_of_mem q (ih h2)

theorem mapGetD_mapSet_self (m : List (String × String)) (k v : String) :
    mapGetD k (mapSet m k v) = v := by
  simp [mapGetD, mapFind_mapSet_self]

theorem mapGetD_mapSet_ne {k k' : String} (h : k ≠ k') (m : List (String × String)) (v : String) :
    mapGetD k' (mapSet m k v) = mapGetD k' m := by
  simp [mapGetD, mapFind_mapSet_ne h]

/-! Section: Memory-backend scan lemmas -/

theorem memFind_of_no_live {u : String} {m : MemStorage}
    (h : ∀ p ∈ m, p.2.originalURL ≠ u ∨ p.2.isDeleted = true) :
    memFind u m = "" := by
  induction m with
  | nil => rfl
  | cons p rest ih =>
      have hp := h p (List.mem_cons_self p rest)
      have hcond : ¬(p.2.originalURL = u ∧ p.2.isDeleted = false) := by
        rcases hp with h1 | h1
        · intro hc; exact h1 hc.1
        · intro hc; rw [h1] at hc; simp at hc
      rw [memFind, if_neg hcond]
      exact ih (fun q hq => h q (List.mem_cons_of_mem p hq))

theorem memFind_append_no_match {u : String} {l₁ : MemStorage} (l₂ : MemStorage)
    (h : ∀ p ∈ l₁, p.2.originalURL ≠ u ∨ p.2.isDeleted = true) :
    memFind u (l₁ ++ l₂) = memFind u l₂ := by
  induction l₁ with
  | nil => rfl
  | cons p rest ih =>
      have hp := h p (List.mem_cons_self p rest)
      have hcond : ¬(p.2.originalURL = u ∧ p.2.isDeleted = false) := by
        rcases hp with h1 | h1
        · intro hc; exact h1 hc.1
        · intro hc; rw [h1] at hc; simp at hc
      rw [List.cons_append, memFind, if_neg hcond]
      exact ih (fun q hq => h q (List.mem_cons_of_mem p hq))

theorem memListByUser_append (uid : String) (l₁ l₂ : MemStorage) :
    memListByUser uid (l₁ ++ l₂) = memListByUser uid l₁ ++ memListByUser uid l₂ := by
  induction l₁ with
  | nil => rfl
  | cons p rest ih =>
      by_cases hc : p.2.userID = uid ∧ p.2.isDeleted = false
      · rw [List.cons_append, memListByUser, if_pos hc, memListByUser, if_pos hc,
          List.cons_append, ih]
      · rw [List.cons_append, memListByUser, if_neg hc, memListByUser, if_neg hc, ih]

/-! Section: Shortening-path lemmas for the memory-backed service -/

theorem shortenURL_mem_new (s : Service MemStorage) (u uid : String)
    (hfind : memFind u s.store = "") (hgen : s.genStream s.genIdx ≠ "") :
    shortenURL memBackend s u uid =
      ({ s with genIdx := s.genIdx + 1,
                cache := mapErase uid s.cache,
                store := mapSet s.store (s.genStream s.genIdx)
                          ⟨s.genStream s.genIdx, u, uid, false⟩ },
       ⟨s.baseURL ++ "/" ++ s.genStream s.genIdx, true⟩, none) := by
  simp [shortenURL, memBackend, memFindByOriginalURL, memSave, hfind, hgen]

theorem shortenURL_mem_found (s : Service MemStorage) (u uid : String)
    (hfind : memFind u s.store ≠ "") :
    shortenURL memBackend s u uid =
      (s, ⟨s.baseURL ++ "/" ++ memFind u s.store, false⟩, none) := by
  simp [shortenURL, memBackend, memFindByOriginalURL, hfind]

theorem getURLsByUserID_mem_fields (s : Service MemStorage) (uid : String) :
    (getURLsByUserID memBackend s uid).1.store = s.store ∧
    (getURLsByUserID memBackend s uid).1.genStream = s.genStream ∧
    (getURLsByUserID memBackend s uid).1.genIdx = s.genIdx ∧
    (getURLsByUserID memBackend s uid).1.baseURL = s.baseURL := by
  unfold getURLsByUserID
  cases mapFind uid s.cache <;> simp [memBackend, memGetURLsByUserID]

theorem getURLsByUserID_mem_miss (s : Service MemStorage) (uid : String)
    (h : mapFind uid s.cache = none) :
    getURLsByUserID memBackend s uid =
      ({ s with cache := mapSet s.cache uid ((memListByUser uid s.store).map
          (fun r => { r with shortURL := s.baseURL ++ "/" ++ r.shortURL })) },
       (memListByUser uid s.store).map
          (fun r => { r with shortURL := s.baseURL ++ "/" ++ r.shortURL }), none) := by
  simp [getURLsByUserID, memBackend, memGetURLsByUserID, h]

/-! Section: Claim theorems -/

/-- C7: if the backend's `FindByOriginalURL` returns an error, `ShortenURL`
returns that error wrapped as `error finding URL: ...` together with an empty
`ShortenResult`, and the service state shows only the effect of the lookup
call itself: the cache and the generator index are untouched and `Save` was
never invoked. -/
theorem shortenURL_surfaces_dedup_lookup_error {σ : Type} (B : Backend σ)
    (s : Service σ) (originalURL userID e : String)
    (h : (B.findByOriginalURL s.store originalURL).2.2 = some e) :
    shortenURL B s originalURL userID =
      ({ s with store := (B.findByOriginalURL s.store originalURL).1 },
       ⟨"", false⟩, some ("error finding URL: " ++ e)) := by
  simp [shortenURL, h]

/-- Witness for C7: on a concrete failing backend the call log records only
the lookup, the result is empty and the wrapped error is returned. -/
theorem shortenURL_surfaces_dedup_lookup_error_witness :
    shortenURL failingFindBackend svcLog0 "https://example.com" "u1" =
      ({ svcLog0 with store := ["FindByOriginalURL"] },
       ⟨"", false⟩, some ("error finding URL: " ++ "db down")) :=
  shortenURL_surfaces_dedup_lookup_error failingFindBackend svcLog0
    "https://example.com" "u1" "db down" rfl

/-- C1: starting from a state with no live record for `u` and a generator
producing a non-empty id, `ShortenURL(u, owner1)` then `ShortenURL(u, owner2)`
return the same short URL both times, with `IsNew = true` then
`IsNew = false`; the two owners are arbitrary, so deduplication is global
across users. -/
theorem dedup_global_two_shortens (s : Service MemStorage) (u owner1 owner2 : String)
    (hlive : ∀ p ∈ s.store, p.2.originalURL ≠ u ∨ p.2.isDeleted = true)
    (hgen : s.genStream s.genIdx ≠ "") :
    (shortenURL memBackend s u owner1).2 =
      (⟨s.baseURL ++ "/" ++ s.genStream s.genIdx, true⟩, none) ∧
    (shortenURL memBackend (shortenURL memBackend s u owner1).1 u owner2).2 =
      (⟨s.baseURL ++ "/" ++ s.genStream s.genIdx, false⟩, none) := by
  have hfind : memFind u s.store = "" := memFind_of_no_live hlive
  have h1 := shortenURL_mem_new s u owner1 hfind hgen
  have hfind2 : memFind u (mapSet s.store (s.genStream s.genIdx)
      ⟨s.genStream s.genIdx, u, owner1, false⟩) = s.genStream s.genIdx := by
    rw [mapSet, memFind_append_no_match _
      (fun p hp => hlive p (mem_of_mem_mapErase hp))]
    simp [memFind]
  constructor
  · rw [h1]
  · rw [h1]
    have h2 := shortenURL_mem_found
      ({ s with genIdx := s.genIdx + 1, cache := mapErase owner1 s.cache,
                store := mapSet s.store (s.genStream s.genIdx)
                  ⟨s.genStream s.genIdx, u, owner1, false⟩ }) u owner2
      (by rw [hfind2]; exact hgen)
    rw [h2]
    simp [hfind2]

/-- Witness for C1: the concrete scenario of the spec, on a fresh service. -/
theorem dedup_global_two_shortens_witness :
    (shortenURL memBackend svcMem0 "https://example.com" "u1").2 =
      (⟨"http://x" ++ "/" ++ "abc12345", true⟩, none) ∧
    (shortenURL memBackend (shortenURL memBackend svcMem0 "https://example.com" "u1").1
        "https://example.com" "u2").2 =
      (⟨"http://x" ++ "/" ++ "abc12345", false⟩, none) :=
  dedup_global_two_shortens svcMem0 "https://example.com" "u1" "u2"
    (by intro p hp; simp [svcMem0] at hp) (by decide)

/-- C4: `Get(shortID)` on the memory backend returns exactly `("", false)`
precisely when the record is absent or marked deleted, so a deleted record is
indistinguishable from one that never existed; the service's `Get` is a pure
passthrough to the backend. -/
theorem get_deleted_indistinguishable (m : MemStorage) (s : Service MemStorage)
    (shortID : String) :
    (memGet m shortID = ("", false) ↔
      ∀ r, mapFind shortID m = some r → r.isDeleted = true) ∧
    serviceGet memBackend s shortID = memGet s.store shortID := by
  refine ⟨?_, rfl⟩
  unfold memGet
  cases hf : mapFind shortID m with
  | none => simp
  | some r =>
      by_cases hd : r.isDeleted
      · simp [hd]
      · simp [hd]

/-- C10: the memory backend's `Save` always returns `nil` and unconditionally
overwrites the record under `shortID` with a fresh non-deleted record owned by
`userID` — whatever record (any owner, even deleted) was there before is lost —
while every other key is untouched. -/
theorem memSave_overwrites (m : MemStorage) (shortID originalURL userID : String) :
    (memSave m shortID originalURL userID).2 = none ∧
    mapFind shortID (memSave m shortID originalURL userID).1 =
      some ⟨shortID, originalURL, userID, false⟩ ∧
    memGet (memSave m shortID originalURL userID).1 shortID = (originalURL, true) ∧
    ∀ k, k ≠ shortID → mapFind k (memSave m shortID originalURL userID).1 = mapFind k m := by
  refine ⟨rfl, ?_, ?_, ?_⟩
  · simp [memSave, mapFind_mapSet_self]
  · simp [memGet, memSave, mapFind_mapSet_self]
  · intro k hk
    simp [memSave, mapFind_mapSet_ne (Ne.symm hk)]

/-- C8: `NewStorage` never returns an error, and the chosen backend follows
the fixed priority chain: SQL when the DSN is non-empty and SQL construction
succeeds, else File when the path is non-empty and File construction
succeeds, else Memory — a higher-priority construction failure falls through
rather than aborting. -/
theorem newStorage_priority_chain (sqlOk fileOk : String → Bool) (dsn path : String) :
    (NewStorage sqlOk fileOk dsn path).2 = none ∧
    (NewStorage sqlOk fileOk dsn path).1 =
      (if dsn ≠ "" ∧ sqlOk dsn then StorageImpl.sql
       else if path ≠ "" ∧ fileOk path then StorageImpl.file
       else StorageImpl.memory) := by
  unfold NewStorage
  by_cases h1 : dsn = "" <;> by_cases h2 : sqlOk dsn <;>
    by_cases h3 : path = "" <;> by_cases h4 : fileOk path <;>
      simp [h1, h2, h3, h4]

/-- Witness for C8: an unreachable SQL DSN with a usable file path yields the
File backend without an error. -/
theorem newStorage_priority_chain_witness :
    (NewStorage (fun _ => false) (fun _ => true) "bad-dsn" "/tmp/data.json").2 = none ∧
    (NewStorage (fun _ => false) (fun _ => true) "bad-dsn" "/tmp/data.json").1 =
      (if "bad-dsn" ≠ "" ∧ (fun (_ : String) => false) "bad-dsn" then StorageImpl.sql
       else if "/tmp/data.json" ≠ "" ∧ (fun (_ : String) => true) "/tmp/data.json" then
         StorageImpl.file
       else StorageImpl.memory) :=
  newStorage_priority_chain (fun _ => false) (fun _ => true) "bad-dsn" "/tmp/data.json"

/-- Length of the drained error log when every per-id deletion fails. -/
theorem fanoutLoop_fail_log_length (ids : List String) (uid : String) :
    ∀ (st : Nat) (log : List String),
      (fanoutLoop alwaysFailDeleter uid ids st log).2.length = log.length + ids.length := by
  induction ids with
  | nil => intro st log; simp [fanoutLoop]
  | cons id rest ih =>
      intro st log
      have hstep : fanoutLoop alwaysFailDeleter uid (id :: rest) st log =
          fanoutLoop alwaysFailDeleter uid rest (st + 1) (log ++ ["delete failed"]) := rfl
      rw [hstep, ih]
      simp only [List.length_append, List.length_cons, List.length_nil]
      omega

/-- C6: the fan-out `DeleteURLs` returns `nil` for every backend and id list —
per-item deletion failures are collected into the drained log (where the Go
code logs them), never aggregated into the returned error; the cache-owning
service's `DeleteURLs` over the memory backend likewise returns `nil`.  With a
backend that fails every deletion, the log holds one entry per id while the
returned error is still `nil`. -/
theorem deleteURLs_best_effort {σ : Type} (B : Backend σ) (st : σ)
    (s : Service MemStorage) (n : Nat) (ids : List String) (uid : String) :
    (deleteURLsFanout B st ids uid).2.2 = none ∧
    (serviceDeleteURLs memBackend s ids uid).2 = none ∧
    (deleteURLsFanout alwaysFailDeleter n ids uid).2.1.length = ids.length := by
  refine ⟨rfl, rfl, ?_⟩
  simpa using fanoutLoop_fail_log_length ids uid n []

/-! Section: Deletion frame lemmas -/

theorem memDeleteStep_other_key {id key : String} (h : id ≠ key) (uid : String)
    (m : MemStorage) :
    mapFind key (memDeleteStep uid id m) = mapFind key m := by
  unfold memDeleteStep
  cases hf : mapFind id m with
  | none => rfl
  | some r =>
      by_cases ho : r.userID = uid
      · simp [ho, mapFind_mapSet_ne h]
      · simp [ho]

theorem memDeleteStep_same_key_other_owner {key uid : String} {r : UserURL}
    {m : MemStorage} (hf : mapFind key m = some r) (ho : r.userID ≠ uid) :
    memDeleteStep uid key m = m := by
  unfold memDeleteStep
  rw [hf]
  simp [ho]

theorem memDeleteStep_same_key_owner {key uid : String} {r : UserURL}
    {m : MemStorage} (hf : mapFind key m = some r) (ho : r.userID = uid) :
    memDeleteStep uid key m = mapSet m key { r with isDeleted := true } := by
  unfold memDeleteStep
  rw [hf]
  simp [ho]

theorem memDeleteLoop_not_listed (uid : String) (ids : List String) :
    ∀ (m : MemStorage) (key : String), key ∉ ids →
      mapFind key (memDeleteLoop uid ids m) = mapFind key m := by
  induction ids with
  | nil => intro m key _; rfl
  | cons id rest ih =>
      intro m key hk
      have hne : id ≠ key := fun h => hk (h ▸ List.mem_cons_self id rest)
      have hrest : key ∉ rest := fun h => hk (List.mem_cons_of_mem id h)
      rw [memDeleteLoop, ih _ key hrest, memDeleteStep_other_key hne]

theorem memDeleteLoop_other_owner (uid : String) (ids : List String) :
    ∀ (m : MemStorage) (key : String) (r : UserURL),
      mapFind key m = some r → r.userID ≠ uid →
      mapFind key (memDeleteLoop uid ids m) = some r := by
  induction ids with
  | nil => intro _ _ _ hf _; exact hf
  | cons id rest ih =>
      intro m key r hf ho
      rw [memDeleteLoop]
      by_cases hid : id = key
      · subst hid
        rw [memDeleteStep_same_key_other_owner hf ho]
        exact ih m id r hf ho
      · have hf' : mapFind key (memDeleteStep uid id m) = some r := by
          rw [memDeleteStep_other_key hid]; exact hf
        exact ih _ key r hf' ho

theorem memDeleteLoop_owner_listed (uid : String) (ids : List String) :
    ∀ (m : MemStorage) (key : String) (r : UserURL),
      mapFind key m = some r → r.userID = uid → key ∈ ids →
      mapFind key (memDeleteLoop uid ids m) = some { r with isDeleted := true } := by
  induction ids with
  | nil => intro _ _ _ _ _ h; exact absurd h (List.not_mem_nil _)
  | cons id rest ih =>
      intro m key r hf ho hmem
      rw [memDeleteLoop]
      by_cases hid : id = key
      · subst hid
        rw [memDeleteStep_same_key_owner hf ho]
        have hf' : mapFind id (mapSet m id { r with isDeleted := true }) =
            some { r with isDeleted := true } := mapFind_mapSet_self m id _
        by_cases hrest : id ∈ rest
        · have := ih (mapSet m id { r with isDeleted := true }) id
            { r with isDeleted := true } hf' ho hrest
          rw [this]
        · rw [memDeleteLoop_not_listed uid rest _ id hrest]
          exact hf'
      · have hmem' : key ∈ rest := by
          rcases List.mem_cons.mp hmem with h | h
          · exact absurd h.symm hid
          · exact h
        have hf' : mapFind key (memDeleteStep uid id m) = some r := by
          rw [memDeleteStep_other_key hid]; exact hf
        exact ih _ key r hf' ho hmem'

/-- C5: for any stored record, `DeleteURLs(shortIDs, userB)` on the memory
backend returns `nil` and: a record owned by someone other than `userB`, or
whose id is not listed, is left entirely unchanged; a live record of another
owner whose id IS listed remains resolvable via `Get`; a record owned by
`userB` whose id is listed is marked deleted. -/
theorem deleteURLs_ownership_frame (m : MemStorage) (ids : List String)
    (userB key : String) (r : UserURL) (hf : mapFind key m = some r) :
    (memDeleteURLs m ids userB).2 = none ∧
    ((r.userID ≠ userB ∨ key ∉ ids) →
      mapFind key (memDeleteURLs m ids userB).1 = some r) ∧
    (r.userID ≠ userB → r.isDeleted = false →
      memGet (memDeleteURLs m ids userB).1 key = (r.originalURL, true)) ∧
    (r.userID = userB → key ∈ ids →
      mapFind key (memDeleteURLs m ids userB).1 = some { r with isDeleted := true }) := by
  refine ⟨rfl, ?_, ?_, ?_⟩
  · intro h
    rcases h with h | h
    · exact memDeleteLoop_other_owner userB ids m key r hf h
    · exact (memDeleteLoop_not_listed userB ids m key h).trans hf
  · intro ho hd
    have h1 : mapFind key (memDeleteLoop userB ids m) = some r :=
      memDeleteLoop_other_owner userB ids m key r hf ho
    simp [memGet, memDeleteURLs, h1, hd]
  · intro ho hmem
    exact memDeleteLoop_owner_listed userB ids m key r hf ho hmem

/-- Witness for C5: deleting `id1` as `userB` when `id1` belongs to `userA`
leaves the record unchanged and still resolvable via `Get`; the call
reports no error. -/
theorem deleteURLs_ownership_frame_witness :
    (memDeleteURLs [("id1", ⟨"id1", "https://a.example", "userA", false⟩)]
        ["id1"] "userB").2 = none ∧
    mapFind "id1" (memDeleteURLs [("id1", ⟨"id1", "https://a.example", "userA", false⟩)]
        ["id1"] "userB").1 = some ⟨"id1", "https://a.example", "userA", false⟩ ∧
    memGet (memDeleteURLs [("id1", ⟨"id1", "https://a.example", "userA", false⟩)]
        ["id1"] "userB").1 "id1" = ("https://a.example", true) := by
  have h := deleteURLs_ownership_frame
    [("id1", ⟨"id1", "https://a.example", "userA", false⟩)] ["id1"] "userB" "id1"
    ⟨"id1", "https://a.example", "userA", false⟩ (by decide)
  exact ⟨h.1, h.2.1 (Or.inl (by decide)), h.2.2.1 (by decide) rfl⟩

/-! Section: Batch correlation lemmas -/

theorem batchLoop_corr_preserve (g : Nat → String) (items : List BatchShortenRequest) :
    ∀ (idx : Nat) (batch corr : List (String × String)) (c : String),
      c ∉ items.map (fun it => it.correlationID) →
      mapGetD c (batchLoop g items idx batch corr).2.2 = mapGetD c corr := by
  induction items with
  | nil => intro idx batch corr c _; rfl
  | cons item rest ih =>
      intro idx batch corr c hc
      rw [List.map_cons] at hc
      have h1 : c ≠ item.correlationID := fun h => hc (h ▸ List.mem_cons_self _ _)
      have h2 : c ∉ rest.map (fun it => it.correlationID) :=
        fun h => hc (List.mem_cons_of_mem _ h)
      rw [batchLoop, ih _ _ _ c h2, mapGetD_mapSet_ne (Ne.symm h1)]

theorem batchLoop_corr_lookup (g : Nat → String) (items : List BatchShortenRequest) :
    ∀ (idx : Nat) (batch corr : List (String × String)),
      (items.map (fun it => it.correlationID)).Nodup →
      ∀ (i : Nat) (hi : i < items.length),
        mapGetD ((items.get ⟨i, hi⟩).correlationID) (batchLoop g items idx batch corr).2.2 =
          g (idx + i) := by
  induction items with
  | nil => intro idx batch corr _ i hi; exact absurd hi (Nat.not_lt_zero i)
  | cons item rest ih =>
      intro idx batch corr hnd i hi
      rw [List.map_cons, List.nodup_cons] at hnd
      cases i with
      | zero =>
          rw [batchLoop]
          rw [show ((item :: rest).get ⟨0, hi⟩) = item from rfl]
          rw [batchLoop_corr_preserve g rest _ _ _ _ hnd.1, mapGetD_mapSet_self,
            Nat.add_zero]
      | succ j =>
          rw [batchLoop]
          have hj : j < rest.length := Nat.lt_of_succ_lt_succ hi
          rw [show ((item :: rest).get ⟨j + 1, hi⟩) = rest.get ⟨j, hj⟩ from rfl]
          rw [ih (idx + 1) _ _ hnd.2 j hj]
          congr 1
          omega

/-- C3: with pairwise-distinct correlation IDs, `ShortenBatch` over the memory
backend succeeds and returns exactly one response per input item, in input
order, pairing each input's `correlationID` with the short URL built from the
id generated for that very input (the `i`-th generator output) — even when
two inputs carry the same `originalURL`. -/
theorem shortenBatch_correlation (s : Service MemStorage)
    (items : List BatchShortenRequest) (userID : String)
    (hnd : (items.map (fun it => it.correlationID)).Nodup) :
    (shortenBatch memBackend s items userID).2.2 = none ∧
    (shortenBatch memBackend s items userID).2.1 =
      items.enum.map (fun p =>
        ⟨p.2.correlationID, s.baseURL ++ "/" ++ s.genStream (s.genIdx + p.1)⟩) := by
  have hresp : (shortenBatch memBackend s items userID).2 =
      (items.map (fun item =>
        (⟨item.correlationID,
          s.baseURL ++ "/" ++
            mapGetD item.correlationID
              (batchLoop s.genStream items s.genIdx [] []).2.2⟩ : BatchShortenResponse)),
       none) := by
    simp [shortenBatch, memBackend, memSaveBatch]
  refine ⟨by rw [hresp], ?_⟩
  rw [hresp]
  apply List.ext_get
  · simp
  · intro i h1 h2
    simp only [List.get_map]
    rw [show ((items.enum).get ⟨i, by simpa using h2⟩) =
        (i, items.get ⟨i, by simpa using h2⟩) from ?_]
    · rw [batchLoop_corr_lookup s.genStream items s.genIdx [] [] hnd i
        (by simpa using h2)]
    · apply List.get_enum

/-- Witness for C3: two inputs with distinct correlation IDs but the same
original URL get the two successive generator outputs, paired in input
order. -/
theorem shortenBatch_correlation_witness :
    (shortenBatch memBackend svcMemSeq
      [⟨"c1", "https://same.example"⟩, ⟨"c2", "https://same.example"⟩] "u1").2.2 = none ∧
    (shortenBatch memBackend svcMemSeq
      [⟨"c1", "https://same.example"⟩, ⟨"c2", "https://same.example"⟩] "u1").2.1 =
      [⟨"c1", "http://x" ++ "/" ++ "a"⟩, ⟨"c2", "http://x" ++ "/" ++ "aa"⟩] := by
  have h := shortenBatch_correlation svcMemSeq
    [⟨"c1", "https://same.example"⟩, ⟨"c2", "https://same.example"⟩] "u1" (by decide)
  exact ⟨h.1, h.2.trans (by decide)⟩

/-! Section: Cache-invalidation lemmas -/

theorem shortenBatch_cache_invalidated (s : Service MemStorage)
    (items : List BatchShortenRequest) (uid : String) :
    mapFind uid (shortenBatch memBackend s items uid).1.cache = none := by
  simp [shortenBatch, memBackend, memSaveBatch, mapFind_mapErase_self]

theorem serviceDeleteURLs_cache_invalidated (s : Service MemStorage)
    (ids : List String) (uid : String) :
    mapFind uid (serviceDeleteURLs memBackend s ids uid).1.cache = none := by
  simp [serviceDeleteURLs, memBackend, memDeleteURLs, mapFind_mapErase_self]

theorem shorten_then_list (s1 : Service MemStorage) (uid anyURL : String)
    (hfind : memFind anyURL s1.store = "") (hgen : s1.genStream s1.genIdx ≠ "") :
    mapFind uid (shortenURL memBackend s1 anyURL uid).1.cache = none ∧
    (⟨s1.baseURL ++ "/" ++ s1.genStream s1.genIdx, anyURL, uid, false⟩ : UserURL) ∈
      (getURLsByUserID memBackend (shortenURL memBackend s1 anyURL uid).1 uid).2.1 := by
  have h1 := shortenURL_mem_new s1 anyURL uid hfind hgen
  rw [h1]
  constructor
  · exact mapFind_mapErase_self uid _
  · rw [getURLsByUserID_mem_miss _ uid (mapFind_mapErase_self uid _)]
    have hmem : (⟨s1.genStream s1.genIdx, anyURL, uid, false⟩ : UserURL) ∈
        memListByUser uid (mapSet s1.store (s1.genStream s1.genIdx)
          ⟨s1.genStream s1.genIdx, anyURL, uid, false⟩) := by
      rw [mapSet, memListByUser_append]
      apply List.mem_append_right
      simp [memListByUser]
    exact List.mem_map_of_mem
      (fun r => ({ r with shortURL := s1.baseURL ++ "/" ++ r.shortURL } : UserURL)) hmem

/-- C2: after `GetURLsByUserID(user)` has run (populating the cache on a
miss), a `ShortenURL(anyURL, user)` call that persists a new record removes
that user's cache entry entirely, so the next `GetURLsByUserID(user)` refetches
and its result contains the new entry rather than a stale snapshot; a
`ShortenBatch` or `DeleteURLs` call for the user likewise leaves no cache
entry for that user. -/
theorem cache_invalidation_no_stale_read (s : Service MemStorage) (uid anyURL : String)
    (hlive : ∀ p ∈ s.store, p.2.originalURL ≠ anyURL ∨ p.2.isDeleted = true)
    (hgen : s.genStream s.genIdx ≠ "") :
    mapFind uid
      (shortenURL memBackend (getURLsByUserID memBackend s uid).1 anyURL uid).1.cache = none ∧
    (⟨s.baseURL ++ "/" ++ s.genStream s.genIdx, anyURL, uid, false⟩ : UserURL) ∈
      (getURLsByUserID memBackend
        (shortenURL memBackend (getURLsByUserID memBackend s uid).1 anyURL uid).1 uid).2.1 ∧
    (∀ items, mapFind uid
      (shortenBatch memBackend (getURLsByUserID memBackend s uid).1 items uid).1.cache =
        none) ∧
    (∀ ids, mapFind uid
      (serviceDeleteURLs memBackend (getURLsByUserID memBackend s uid).1 ids uid).1.cache =
        none) := by
  obtain ⟨hst, hgs, hgi, hbu⟩ := getURLsByUserID_mem_fields s uid
  have hfind1 : memFind anyURL (getURLsByUserID memBackend s uid).1.store = "" := by
    rw [hst]; exact memFind_of_no_live hlive
  have hgen1 : (getURLsByUserID memBackend s uid).1.genStream
      (getURLsByUserID memBackend s uid).1.genIdx ≠ "" := by
    rw [hgs, hgi]; exact hgen
  have h2 := shorten_then_list (getURLsByUserID memBackend s uid).1 uid anyURL hfind1 hgen1
  rw [hbu, hgs, hgi] at h2
  exact ⟨h2.1, h2.2,
    fun items => shortenBatch_cache_invalidated _ items uid,
    fun ids => serviceDeleteURLs_cache_invalidated _ ids uid⟩

/-- Witness for C2: the concrete no-stale-read scenario on a fresh service. -/
theorem cache_invalidation_no_stale_read_witness :
    mapFind "u1" (shortenURL memBackend
      (getURLsByUserID memBackend svcMem0 "u1").1 "https://example.com" "u1").1.cache =
        none ∧
    (⟨"http://x" ++ "/" ++ "abc12345", "https://example.com", "u1", false⟩ : UserURL) ∈
      (getURLsByUserID memBackend (shortenURL memBackend
        (getURLsByUserID memBackend svcMem0 "u1").1 "https://example.com" "u1").1 "u1").2.1 ∧
    mapFind "u1" (shortenBatch memBackend (getURLsByUserID memBackend svcMem0 "u1").1
      [⟨"c1", "https://b.example"⟩] "u1").1.cache = none ∧
    mapFind "u1" (serviceDeleteURLs memBackend (getURLsByUserID memBackend svcMem0 "u1").1
      ["abc12345"] "u1").1.cache = none := by
  have h := cache_invalidation_no_stale_read svcMem0 "u1" "https://example.com"
    (by intro p hp; simp [svcMem0] at hp) (by decide)
  exact ⟨h.1, h.2.1, h.2.2.1 [⟨"c1", "https://b.example"⟩], h.2.2.2 ["abc12345"]⟩

/-- Every character drawn by the generator's indexing step is in the alphabet. -/
theorem lettersAlphanum_getD_mem (n : Nat) :
    lettersAlphanum.data.getD (n % lettersAlphanum.data.length) 'a' ∈
      lettersAlphanum.data := by
  have hlen : 0 < lettersAlphanum.data.length := by decide
  have hlt : n % lettersAlphanum.data.length < lettersAlphanum.data.length :=
    Nat.mod_lt n hlen
  rw [List.getD_eq_getElem lettersAlphanum.data 'a' hlt]
  exact List.getElem_mem hlt

/-- C9: for every configured length `L`, every random source and every call
(any consumption index), `Generate` returns a string of exactly `L`
characters, each belonging to the 62-character alphanumeric alphabet; in
particular for `L ≥ 1` the result is never the empty string. -/
theorem generate_length_and_alphabet (L : Nat) (randSrc : Nat → Nat) (randIdx : Nat) :
    ((SimpleGenerator.generate ⟨lettersAlphanum, L, randSrc, randIdx⟩).1).length = L ∧
    (∀ c ∈ ((SimpleGenerator.generate ⟨lettersAlphanum, L, randSrc, randIdx⟩).1).data,
      c ∈ lettersAlphanum.data) ∧
    (1 ≤ L → (SimpleGenerator.generate ⟨lettersAlphanum, L, randSrc, randIdx⟩).1 ≠ "") := by
  have hlength :
      ((SimpleGenerator.generate ⟨lettersAlphanum, L, randSrc, randIdx⟩).1).length = L := by
    simp only [SimpleGenerator.generate, String.length, List.length_map, List.length_range]
  refine ⟨hlength, ?_, ?_⟩
  · intro c hc
    simp only [SimpleGenerator.generate, List.mem_map] at hc
    obtain ⟨i, _, hi⟩ := hc
    rw [← hi]
    exact lettersAlphanum_getD_mem _
  · intro hL heq
    rw [heq, String.length_empty] at hlength
    omega

/-- Witness for C9: a generator of length 8 yields an 8-character, non-empty
string. -/
theorem generate_length_and_alphabet_witness :
    ((SimpleGenerator.generate (NewGenerator 8 (fun i => i))).1).length = 8 ∧
    (SimpleGenerator.generate (NewGenerator 8 (fun i => i))).1 ≠ "" :=
  ⟨(generate_length_and_alphabet 8 (fun i => i) 0).1,
   (generate_length_and_alphabet 8 (fun i => i) 0).2.2 (by decide)⟩
